import Mathlib

/-
Verification development for the ICNA Sacramento events scraper
(src/scrape_icna_events.py).

Shallow embedding.  Strings are modelled as `List Char` (Python `str` is a
sequence of characters; all operations used by the program are per-character).
Files are modelled as the list of their physical lines: the program writes
files line by line (each `f.write` ends in a newline) and reads them back with
`content.split('\n')`, and no written line contains an embedded newline, so
the line list is a faithful representation of the on-disk content.

Naive `datetime` values are a record of calendar fields; Python compares naive
datetimes field-lexicographically and `timedelta` arithmetic is exact calendar
arithmetic, both reproduced here.  `pytz.timezone('America/Los_Angeles')
.localize(dt)` (with the default `is_dst=False`) attaches the zone offset
determined by the wall-clock instant: UTC-7 during daylight saving time
(from 03:00 on the second Sunday of March to 01:00 on the first Sunday of
November, the post-2007 US rule used by the tz database for the years this
program handles; ambiguous and non-existent wall times resolve to standard
time under `is_dst=False`), and UTC-8 otherwise.  Aware datetimes compare by
their UTC instant.
-/

/-- Characters of a Python string. -/
abbrev Chars := List Char

/-- A naive `datetime.datetime` as produced by `strptime` in this program
(seconds and microseconds are always zero here, so they are omitted). -/
structure NaiveDT where
  year : Nat
  month : Nat
  day : Nat
  hour : Nat
  minute : Nat
deriving DecidableEq

/-- Gregorian leap-year rule (Python `calendar`/`datetime`). -/
def isLeap (y : Nat) : Bool :=
  (y % 4 == 0 && y % 100 != 0) || y % 400 == 0

/-- Number of days in a month (Python `datetime` validation). -/
def daysInMonth (y m : Nat) : Nat :=
  if m = 2 then (if isLeap y then 29 else 28)
  else if m = 4 ∨ m = 6 ∨ m = 9 ∨ m = 11 then 30 else 31

/-- Day count of a Gregorian date (days since 0000-03-01), the standard
era-based civil-from-date algorithm; valid for `y ≥ 1`. -/
def daysFromCivil (y m d : Nat) : Nat :=
  let yy := if m ≤ 2 then y - 1 else y
  let era := yy / 400
  let yoe := yy % 400
  let mp := if 2 < m then m - 3 else m + 9
  let doy := (153 * mp + 2) / 5 + (d - 1)
  let doe := yoe * 365 + yoe / 4 - yoe / 100 + doy
  era * 146097 + doe

/-- Minutes on the linear naive timeline. -/
def minOf (dt : NaiveDT) : Nat :=
  daysFromCivil dt.year dt.month dt.day * 1440 + dt.hour * 60 + dt.minute

/-- Day of week, Sunday = 0 (calibrated: 1970-01-01, day number 719468,
was a Thursday = 4). -/
def dow (n : Nat) : Nat := (n + 3) % 7

/-- Day of month of the first Sunday of month `m` in year `y`. -/
def firstSundayDay (y m : Nat) : Nat :=
  1 + (7 - dow (daysFromCivil y m 1)) % 7

/-- Pacific daylight-saving predicate on naive wall-clock values, as resolved
by `pytz` `localize` with `is_dst=False`: daylight time applies from 03:00 on
the second Sunday of March up to (not including) 01:00 on the first Sunday of
November; ambiguous and skipped wall times resolve to standard time. -/
def isPDT (dt : NaiveDT) : Bool :=
  let t := minOf dt
  let spring := daysFromCivil dt.year 3 (firstSundayDay dt.year 3 + 7) * 1440 + 180
  let fall := daysFromCivil dt.year 11 (firstSundayDay dt.year 11) * 1440 + 60
  decide (spring ≤ t ∧ t < fall)

/-- A timezone-aware datetime: wall-clock fields plus the attached UTC offset
in minutes (negative west of Greenwich). -/
structure Zoned where
  wall : NaiveDT
  offMin : Int
deriving DecidableEq

/-- Model of `self.timezone.localize(dt)` for America/Los_Angeles. -/
def localize (dt : NaiveDT) : Zoned :=
  ⟨dt, if isPDT dt then -420 else -480⟩

/-- UTC instant (in minutes) of an aware datetime. -/
def utcMinZ (z : Zoned) : Int :=
  (minOf z.wall : Int) - z.offMin

/-- Python comparison of aware datetimes: by UTC instant. -/
def zLt (a b : Zoned) : Bool := decide (utcMinZ a < utcMinZ b)

/-- Python comparison of naive datetimes: field-lexicographic. -/
def ltNaive (a b : NaiveDT) : Bool :=
  decide (a.year < b.year) ||
    (a.year == b.year && (decide (a.month < b.month) ||
      (a.month == b.month && (decide (a.day < b.day) ||
        (a.day == b.day && (decide (a.hour < b.hour) ||
          (a.hour == b.hour && decide (a.minute < b.minute))))))))

/-- The next calendar day, keeping the time of day: the effect of
`dt + timedelta(days=1)` on a valid naive datetime. -/
def nextDate (dt : NaiveDT) : NaiveDT :=
  if dt.day < daysInMonth dt.year dt.month then { dt with day := dt.day + 1 }
  else if dt.month < 12 then { dt with month := dt.month + 1, day := 1 }
  else { dt with year := dt.year + 1, month := 1, day := 1 }

/-- The effect of `dt + timedelta(hours=2)` on a valid naive datetime. -/
def addHours2 (dt : NaiveDT) : NaiveDT :=
  if dt.hour + 2 < 24 then { dt with hour := dt.hour + 2 }
  else { nextDate dt with hour := dt.hour + 2 - 24 }

/-- Model of `end_dt + timedelta(days=1)` at line 152: exact calendar
arithmetic, but Python raises `OverflowError` when the result would pass
`datetime.max` (year 9999); that exception is caught by the handler at
line 220, so the parse returns `None`.  (The lower bound `datetime.min`
cannot be crossed by a forward addition.) -/
def addOneDay (dt : NaiveDT) : Option NaiveDT :=
  if (nextDate dt).year ≤ 9999 then some (nextDate dt) else none

/-- Model of `start_dt + timedelta(hours=2)` at line 209, with the same
`OverflowError` boundary at `datetime.max`. -/
def addTwoHours (dt : NaiveDT) : Option NaiveDT :=
  if (addHours2 dt).year ≤ 9999 then some (addHours2 dt) else none

/-- Field validity enforced by the `datetime` constructor. -/
def validDT (dt : NaiveDT) : Prop :=
  1 ≤ dt.year ∧ dt.year ≤ 9999 ∧ 1 ≤ dt.month ∧ dt.month ≤ 12 ∧
    1 ≤ dt.day ∧ dt.day ≤ daysInMonth dt.year dt.month ∧
    dt.hour < 24 ∧ dt.minute < 60

instance (dt : NaiveDT) : Decidable (validDT dt) := by
  unfold validDT; infer_instance

/-- Model of the `datetime(...)` constructor: validates the fields
(raising `ValueError`, i.e. `none`, on invalid input). -/
def datetime_mk (y m d h mi : Nat) : Option NaiveDT :=
  if validDT ⟨y, m, d, h, mi⟩ then some ⟨y, m, d, h, mi⟩ else none

/-- Model of `dt.replace(hour=h, minute=mi)`: replaces the two fields,
validating them (Python raises `ValueError` for an out-of-range field). -/
def replace_hm (dt : NaiveDT) (h mi : Nat) : Option NaiveDT :=
  if h < 24 ∧ mi < 60 then some { dt with hour := h, minute := mi } else none

/-- Python `\s` whitespace (the ASCII part; no other whitespace characters
reach the regular expressions after normalization). -/
def isPySpace (c : Char) : Bool :=
  c = ' ' || c = '\t' || c = '\n' || c = '\r' || c = '\x0b' || c = '\x0c'

/-- Python `str.strip()`. -/
def pyStrip (s : Chars) : Chars :=
  ((s.dropWhile isPySpace).reverse.dropWhile isPySpace).reverse

/-- Helper for whitespace collapsing: `prevSpace` records whether the
previous character was whitespace (in which case further whitespace of the
same run is dropped). -/
def collapseGo (prevSpace : Bool) : Chars → Chars
  | [] => []
  | c :: rest =>
    if isPySpace c then
      if prevSpace then collapseGo true rest else ' ' :: collapseGo true rest
    else c :: collapseGo false rest

/-- Python `re.sub(r'\s+', ' ', s)`: collapse every whitespace run to a
single space. -/
def collapseWs (s : Chars) : Chars := collapseGo false s

/-- The preprocessing of `parse_date_string` (lines 97-98):
`date_str.strip()` then whitespace normalization. -/
def normalizeDS (s : Chars) : Chars := collapseWs (pyStrip s)

/-- Line 103: a range shape is detected iff an en dash or an em dash occurs
in the normalized text (a hyphen-minus is not checked). -/
def containsSep (d : Chars) : Bool := d.contains '–' || d.contains '—'

/-- Line 104: `re.split(r'[–—]', date_str)`. -/
def splitDashes (d : Chars) : List Chars :=
  d.splitOnP (fun c => c = '–' || c = '—')

/-- Lines 105: `parts[0].strip()`. -/
def startPartOf (d : Chars) : Chars := pyStrip ((splitDashes d).headD [])

/-- Line 106: `parts[1].strip() if len(parts) > 1 else ""`. -/
def endPartOf (d : Chars) : Chars :=
  if 1 < (splitDashes d).length then pyStrip ((splitDashes d).getD 1 []) else []

/-- Model of `re.sub(r'\s+(PDT|PST)$', '', part)`: removes one trailing
timezone abbreviation together with the whitespace run before it. -/
def stripTZ (s : Chars) : Chars :=
  let r := s.reverse
  if ("TDP".data).isPrefixOf r || ("TSP".data).isPrefixOf r then
    let core := (r.drop 3).reverse
    let core2 := (core.reverse.dropWhile isPySpace).reverse
    if core2.length < core.length then core2 else s
  else s

/-- Digit value of a character, if it is an ASCII digit. -/
def charDigit (c : Char) : Option Nat :=
  if c.isDigit then some (c.toNat - 48) else none

/-- Case-insensitive literal match of a (lower-case) pattern against a prefix
of the input, returning the rest (CPython compiles `strptime` patterns with
`re.IGNORECASE`). -/
def matchCI : Chars → Chars → Option Chars
  | [], s => some s
  | _, [] => none
  | p :: ps, c :: cs => if c.toLower = p then matchCI ps cs else none

/-- First matching month name from a table, with its month number. -/
def tryMonths : List (Chars × Nat) → Chars → Option (Nat × Chars)
  | [], _ => none
  | (nm, v) :: tbl, s =>
    match matchCI nm s with
    | some rest => some (v, rest)
    | none => tryMonths tbl s

/-- Full month names for the `%B` directive (no name is a prefix of another,
so the match order is irrelevant). -/
def monthsFull : List (Chars × Nat) :=
  [("january".data, 1), ("february".data, 2), ("march".data, 3),
   ("april".data, 4), ("may".data, 5), ("june".data, 6), ("july".data, 7),
   ("august".data, 8), ("september".data, 9), ("october".data, 10),
   ("november".data, 11), ("december".data, 12)]

/-- Abbreviated month names for the `%b` directive. -/
def monthsAbbr : List (Chars × Nat) :=
  [("jan".data, 1), ("feb".data, 2), ("mar".data, 3), ("apr".data, 4),
   ("may".data, 5), ("jun".data, 6), ("jul".data, 7), ("aug".data, 8),
   ("sep".data, 9), ("oct".data, 10), ("nov".data, 11), ("dec".data, 12)]

/-- One-or-more whitespace (the `\s+` CPython substitutes for literal
whitespace in a `strptime` format). -/
def wsPlus : Chars → Option Chars
  | [] => none
  | c :: rest => if isPySpace c then some (rest.dropWhile isPySpace) else none

/-- A single required literal character. -/
def lit (c : Char) : Chars → Option Chars
  | [] => none
  | x :: r => if x = c then some r else none

/-- The `%d` directive, regex `(3[01]|[12]\d|0[1-9]|[1-9])`.  The two-digit
alternatives are tried first; no backtracking is needed because the directive
is always followed by a comma, which can never absorb the second digit. -/
def parseDay : Chars → Option (Nat × Chars)
  | [] => none
  | a :: rest =>
    match charDigit a, rest with
    | none, _ => none
    | some va, b :: rest2 =>
      match charDigit b with
      | some vb =>
        if (va = 3 ∧ vb ≤ 1) ∨ va = 1 ∨ va = 2 ∨ (va = 0 ∧ 1 ≤ vb) then
          some (10 * va + vb, rest2)
        else if 1 ≤ va then some (va, b :: rest2) else none
      | none => if 1 ≤ va then some (va, b :: rest2) else none
    | some va, [] => if 1 ≤ va then some (va, []) else none

/-- The `%I` directive, regex `(1[0-2]|0[1-9]|[1-9])`; followed by a colon,
so no backtracking is needed. -/
def parseHour12 : Chars → Option (Nat × Chars)
  | [] => none
  | a :: rest =>
    match charDigit a, rest with
    | none, _ => none
    | some va, b :: rest2 =>
      match charDigit b with
      | some vb =>
        if (va = 1 ∧ vb ≤ 2) ∨ (va = 0 ∧ 1 ≤ vb) then
          some (10 * va + vb, rest2)
        else if 1 ≤ va then some (va, b :: rest2) else none
      | none => if 1 ≤ va then some (va, b :: rest2) else none
    | some va, [] => if 1 ≤ va then some (va, []) else none

/-- The `%M` directive, regex `([0-5]\d|\d)`; what follows never starts with
a digit, so no backtracking is needed. -/
def parseMinute : Chars → Option (Nat × Chars)
  | [] => none
  | a :: rest =>
    match charDigit a, rest with
    | none, _ => none
    | some va, b :: rest2 =>
      match charDigit b with
      | some vb => if va ≤ 5 then some (10 * va + vb, rest2) else some (va, b :: rest2)
      | none => some (va, b :: rest2)
    | some va, [] => some (va, [])

/-- The `%Y` directive, regex `(\d\d\d\d)`. -/
def parseYear4 : Chars → Option (Nat × Chars)
  | a :: b :: c :: d :: rest =>
    match charDigit a, charDigit b, charDigit c, charDigit d with
    | some va, some vb, some vc, some vd =>
      some (1000 * va + 100 * vb + 10 * vc + vd, rest)
    | _, _, _, _ => none
  | _ => none

/-- The `%p` directive: `AM`/`PM`, case-insensitive; `true` means PM. -/
def pAmPm : Chars → Option (Bool × Chars)
  | a :: m :: rest =>
    if m.toLower = 'm' then
      if a.toLower = 'a' then some (false, rest)
      else if a.toLower = 'p' then some (true, rest)
      else none
    else none
  | _ => none

/-- The 12-hour to 24-hour conversion shared by CPython `strptime` (`%I` with
`%p`) and the hand-written conversion at lines 143-146 of the source. -/
def to24 (h : Nat) (pm : Bool) : Nat :=
  if pm then (if h = 12 then 12 else h + 12) else (if h = 12 then 0 else h)

/-- Model of `datetime.strptime(s, fmt)` for the format family
`"%B %d, %Y, %I:%M %p"` used by this program: `months` selects `%B` or `%b`,
`spaceBeforeP` selects whether a `\s+` separates `%M` from `%p`.  The whole
input must be consumed, and the resulting fields go through the `datetime`
constructor's validation. -/
def strptimeCore (months : List (Chars × Nat)) (spaceBeforeP : Bool)
    (s : Chars) : Option NaiveDT := do
  let (m, s1) ← tryMonths months s
  let s2 ← wsPlus s1
  let (d, s3) ← parseDay s2
  let s4 ← lit ',' s3
  let s5 ← wsPlus s4
  let (y, s6) ← parseYear4 s5
  let s7 ← lit ',' s6
  let s8 ← wsPlus s7
  let (h12, s9) ← parseHour12 s8
  let s10 ← lit ':' s9
  let (mi, s11) ← parseMinute s10
  let s12 ← if spaceBeforeP then wsPlus s11 else pure s11
  let (pm, s13) ← pAmPm s12
  if s13 = [] then datetime_mk y m d (to24 h12 pm) mi else none

/-- The two start formats tried at lines 113-116 (and reused for shape C at
lines 191-194):  `"%B %d, %Y, %I:%M %p"` then `"%B %d, %Y, %I:%M%p"`. -/
def strptimeStart (s : Chars) : Option NaiveDT :=
  match strptimeCore monthsFull true s with
  | some dt => some dt
  | none => strptimeCore monthsFull false s

/-- The four end formats tried at lines 158-163, in order. -/
def strptimeEnd (s : Chars) : Option NaiveDT :=
  match strptimeCore monthsAbbr true s with
  | some dt => some dt
  | none =>
    match strptimeCore monthsFull true s with
    | some dt => some dt
    | none =>
      match strptimeCore monthsAbbr false s with
      | some dt => some dt
      | none => strptimeCore monthsFull false s

/-- Tail of the time-only pattern after the colon: `\d{2}\s*[AP]M`
(upper-case only, as in the source regex). -/
def minuteAmGroups : Chars → Option (Nat × Bool)
  | a :: b :: rest =>
    match charDigit a, charDigit b with
    | some va, some vb =>
      match rest.dropWhile isPySpace with
      | p :: m :: _ =>
        if m = 'M' then
          if p = 'A' then some (10 * va + vb, false)
          else if p = 'P' then some (10 * va + vb, true)
          else none
        else none
      | _ => none
    | _, _ => none
  | _ => none

/-- Match of `(\d{1,2}):(\d{2})\s*([AP]M)` at the start of the input,
returning the captured hour, minute and AM/PM flag.  The greedy two-digit
hour backtracks to one digit only if the colon fails; the one-digit
alternative then needs a colon where a digit stands, so it can never succeed
after the two-digit alternative matched, exactly as in the regex engine. -/
def timeAtPos : Chars → Option (Nat × Nat × Bool)
  | a :: rest =>
    match charDigit a, rest with
    | none, _ => none
    | some va, b :: rest2 =>
      (match charDigit b, rest2 with
       | some vb, c :: rest3 =>
         if c = ':' then
           (minuteAmGroups rest3).map (fun p => (10 * va + vb, p.1, p.2))
         else none
       | some _, [] => none
       | none, _ =>
         if b = ':' then (minuteAmGroups rest2).map (fun p => (va, p.1, p.2))
         else none)
    | some _, [] => none
  | [] => none

/-- Model of `re.search(r'(\d{1,2}):(\d{2})\s*([AP]M)', s)` (line 137):
the leftmost match. -/
def searchTime : Chars → Option (Nat × Nat × Bool)
  | [] => none
  | c :: rest =>
    match timeAtPos (c :: rest) with
    | some r => some r
    | none => searchTime rest

/-- Anchored match `re.match(r'^\d{1,2}:\d{2}\s*[AP]M', s)` (line 135). -/
def timeOnlyMatch (s : Chars) : Bool :=
  match s with
  | a :: rest =>
    (charDigit a).isSome &&
      match rest with
      | b :: rest2 =>
        if (charDigit b).isSome then
          match rest2 with
          | c :: rest3 => c = ':' && (minuteAmGroups rest3).isSome
          | [] => false
        else b = ':' && (minuteAmGroups rest2).isSome
      | [] => false
  | [] => false

/-- The parsed interval returned by `parse_date_string` (`endz` stands for
the dictionary entry named `end` in the source, a reserved word here). -/
structure ParsedInterval where
  start : Zoned
  endz : Zoned
deriving DecidableEq

/-- Cleaned start segment of a range input (line 110). -/
def startCleanOf (d : Chars) : Chars := stripTZ (startPartOf d)

/-- Cleaned end segment of a range input (line 132). -/
def endCleanOf (d : Chars) : Chars := stripTZ (endPartOf d)

/-- The range branch of `parse_date_string` (lines 104-185), taken when the
normalized text contains an en dash or em dash.  Every exception raised in
the original (`ValueError` from `replace`, from the unmatched-end branches,
or from a failed full-date end parse) is caught by the enclosing handler and
becomes `none`. -/
def parse_range (d : Chars) : Option ParsedInterval :=
  match strptimeStart (startCleanOf d) with
  | none => none
  | some st =>
    if timeOnlyMatch (pyStrip (endCleanOf d)) then
      match searchTime (endCleanOf d) with
      | none => none
      | some (h, mi, pm) =>
        match replace_hm st (to24 h pm) mi with
        | none => none
        | some sub =>
          if ltNaive sub st then
            match addOneDay sub with
            | none => none
            | some en => some ⟨localize st, localize en⟩
          else some ⟨localize st, localize sub⟩
    else
      match strptimeEnd (endCleanOf d) with
      | none => none
      | some en => some ⟨localize st, localize en⟩

/-- The single-instant branch of `parse_date_string` (lines 186-218): a
fixed two-hour duration is added to the naive start before localization.
When both formats fail the original raises (`UnboundLocalError` on the
`if not start_dt` check), which the enclosing handler turns into `None`. -/
def parse_single (d : Chars) : Option ParsedInterval :=
  match strptimeStart (stripTZ d) with
  | none => none
  | some st =>
    match addTwoHours st with
    | none => none
    | some en => some ⟨localize st, localize en⟩

/-- Model of `ICNAEventsScraper.parse_date_string` (lines 88-222): a total
function; every Python exception path returns `none` through the enclosing
`except` handler, so no exception escapes to the caller. -/
def parse_date_string (s : Chars) : Option ParsedInterval :=
  if containsSep (normalizeDS s) then parse_range (normalizeDS s)
  else parse_single (normalizeDS s)


/-- Two zero-padded decimal digits (for `strftime` fields). -/
def pad2 (n : Nat) : Chars :=
  [Char.ofNat (48 + n / 10 % 10), Char.ofNat (48 + n % 10)]

/-- Four zero-padded decimal digits (`strftime` `%Y` for the years that can
occur here). -/
def pad4 (n : Nat) : Chars :=
  if n < 10000 then
    [Char.ofNat (48 + n / 1000), Char.ofNat (48 + n / 100 % 10),
     Char.ofNat (48 + n / 10 % 10), Char.ofNat (48 + n % 10)]
  else Nat.toDigits 10 n

/-- Inverse of `daysFromCivil` (the standard civil-from-days algorithm), on
the same day-numbering (days since 0000-03-01). -/
def civilFromDays (z : Int) : Int × Nat × Nat :=
  let era := z.fdiv 146097
  let doe := (z.emod 146097).toNat
  let yoe := (doe - doe / 1460 + doe / 36524 - doe / 146096) / 365
  let doy := doe - (365 * yoe + yoe / 4 - yoe / 100)
  let mp := (5 * doy + 2) / 153
  let d := doy - (153 * mp + 2) / 5 + 1
  let m := if mp < 10 then mp + 3 else mp - 9
  (era * 400 + yoe + (if m ≤ 2 then 1 else 0), m, d)

/-- UTC instant of an aware datetime, in seconds on the same timeline as
`minOf`. -/
def utcSecZ (z : Zoned) : Int := utcMinZ z * 60

/-- `start.astimezone(pytz.utc).strftime('%Y%m%dT%H%M%SZ')` (line 84), as a
function of the UTC instant in seconds. -/
def fmtKeySec (sec : Int) : Chars :=
  let days := sec.fdiv 86400
  let sod := (sec.emod 86400).toNat
  let c := civilFromDays days
  pad4 c.1.toNat ++ pad2 c.2.1 ++ pad2 c.2.2 ++
    'T' :: (pad2 (sod / 3600) ++ pad2 (sod % 3600 / 60) ++ pad2 (sod % 60)) ++ ['Z']

/-- An aware timestamp as `_event_exists` receives it: a UTC instant in
seconds plus a sub-second (microsecond) component, which `strftime` with the
`'%Y%m%dT%H%M%SZ'` format discards. -/
structure AwareTS where
  utcSec : Int
  micro : Nat
deriving DecidableEq

/-- The identity key `f"{title}|{dtstart}"` (lines 60 and 85). -/
def keyOfSD (s d : Chars) : Chars := s ++ '|' :: d

/-- Model of `ICNAEventsScraper._event_exists` (lines 78-86): membership of
the `title|UTC-start` key in the loaded key set.  Only the title and the
start instant truncated to whole seconds enter the key. -/
def _event_exists (store : List Chars) (title : Chars) (start : AwareTS) : Bool :=
  store.contains (keyOfSD title (fmtKeySec start.utcSec))

/-- Line prefix `BEGIN:VEVENT`. -/
def lBEGINV : Chars := "BEGIN:VEVENT".data

/-- Line prefix `END:VEVENT`. -/
def lENDV : Chars := "END:VEVENT".data

/-- Line prefix `SUMMARY:`. -/
def lSUMMARY : Chars := "SUMMARY:".data

/-- Line prefix `DTSTART:`. -/
def lDTSTART : Chars := "DTSTART:".data

/-- Prefix test, matching on the pattern first so that it reduces even when
only a proper prefix of the scrutinee is known. -/
def isPrefixChars : Chars → Chars → Bool
  | [], _ => true
  | p :: ps, l =>
    match l with
    | [] => false
    | c :: cs => (p == c) && isPrefixChars ps cs

/-- Python `line.startswith(p)`. -/
def startsW (l p : Chars) : Bool := isPrefixChars p l

/-- Scanner state of `_load_existing_events` (lines 48-67): the `in_event`
flag, the current `event_summary` and `event_dtstart`, and the keys inserted
so far (the Python dict is used as a set, so a duplicate insertion does not
change membership). -/
structure LoadSt where
  inE : Bool
  sum : Chars
  dts : Chars
  keys : List Chars
deriving DecidableEq

/-- The key emitted at an `END:VEVENT` line: one key when both fields are
non-empty strings (Python truthiness), nothing otherwise. -/
def emitOf (s d : Chars) : List Chars :=
  if s ≠ [] ∧ d ≠ [] then [keyOfSD s d] else []

/-- One line of the `_load_existing_events` scan (lines 52-67). -/
def lstep (σ : LoadSt) (l : Chars) : LoadSt :=
  if startsW l lBEGINV then ⟨true, [], [], σ.keys⟩
  else if startsW l lENDV then ⟨false, σ.sum, σ.dts, σ.keys ++ emitOf σ.sum σ.dts⟩
  else if σ.inE then
    (if startsW l lSUMMARY then ⟨σ.inE, l.drop 8, σ.dts, σ.keys⟩
     else if startsW l lDTSTART then ⟨σ.inE, σ.sum, l.drop 8, σ.keys⟩
     else σ)
  else σ

/-- Initial scanner state. -/
def loadInit : LoadSt := ⟨false, [], [], []⟩

/-- The scan over a list of lines. -/
def loadRun (σ : LoadSt) (f : List Chars) : LoadSt := f.foldl lstep σ

/-- Model of `ICNAEventsScraper._load_existing_events` (lines 37-76): the
key set read from the calendar file; a missing file (`none`) yields the
empty set (`FileNotFoundError` branch). -/
def load_existing_events : Option (List Chars) → List Chars
  | none => []
  | some f => (loadRun loadInit f).keys

/-- Scanner state of the existing-event extraction in `generate_ics`
(lines 463-478): the `in_event` flag, `current_event_lines`, and the lines
accumulated into `existing_event_text` (each flushed block contributes its
lines followed by the end line, exactly as `'\n'.join(...) + '\n'` does). -/
structure ExSt where
  inE : Bool
  cur : List Chars
  out : List Chars
deriving DecidableEq

/-- One line of the block extraction (lines 467-478). -/
def estep (e : ExSt) (l : Chars) : ExSt :=
  if startsW l lBEGINV then ⟨true, [l], e.out⟩
  else if startsW l lENDV then ⟨false, [], e.out ++ e.cur ++ [l]⟩
  else if e.inE then ⟨true, e.cur ++ [l], e.out⟩
  else e

/-- Initial extraction state. -/
def exInit : ExSt := ⟨false, [], []⟩

/-- The lines of `existing_event_text` extracted from a file. -/
def extractOut (f : List Chars) : List Chars := (f.foldl estep exInit).out

/-- A scraped event dictionary (lines 405-412). -/
structure ScrapedEvent where
  title : Chars
  start : Zoned
  endz : Zoned
  location : Chars
  description : Chars
  url : Chars
deriving DecidableEq

/-- RFC 5545 TEXT escaping applied by the ics library when serializing
property values (backslash, semicolon, comma, newline). -/
def icsEscape (s : Chars) : Chars :=
  (s.map (fun c =>
    if c = '\\' then ['\\', '\\']
    else if c = ';' then ['\\', ';']
    else if c = ',' then ['\\', ',']
    else if c = '\n' then ['\\', 'n']
    else [c])).flatten

/-- Deterministic stand-in for `hashlib.md5(title).hexdigest()[:8]`
(line 516).  Only its determinism matters: the UID plays no role in
deduplication, which uses the `SUMMARY`/`DTSTART` key. -/
def titleHash8 (t : Chars) : Chars := (t ++ ("00000000".data)).take 8

/-- `event_data['start'].strftime('%Y%m%d%H%M%S')` (line 517). -/
def fmtLocalCompact (z : Zoned) : Chars :=
  pad4 z.wall.year ++ pad2 z.wall.month ++ pad2 z.wall.day ++
    pad2 z.wall.hour ++ pad2 z.wall.minute ++ pad2 0

/-- `'\n'.join(parts)`. -/
def joinNl (ls : List Chars) : Chars := List.intercalate ['\n'] ls

/-- The combined description text (lines 507-513). -/
def descText (e : ScrapedEvent) : Chars :=
  joinNl ((if e.description ≠ [] then [e.description] else []) ++
    (if e.url ≠ [] then [('\n' :: '\n' :: ("More info: ".data)) ++ e.url] else []))

/-- Model of one serialized `VEVENT` block as emitted by the ics library for
an event built at lines 491-519: aware timestamps are serialized as UTC with
a trailing `Z` at whole-second precision, text values are escaped, and no
interior line starts with `BEGIN:VEVENT` or `END:VEVENT`. -/
def evBlock (e : ScrapedEvent) : List Chars :=
  [lBEGINV,
   lDTSTART ++ fmtKeySec (utcSecZ e.start),
   ("DTEND:".data) ++ fmtKeySec (utcSecZ e.endz),
   lSUMMARY ++ icsEscape e.title,
   ("DESCRIPTION:".data) ++ icsEscape (descText e),
   ("LOCATION:".data) ++ icsEscape e.location,
   ("UID:".data) ++ fmtLocalCompact e.start ++ '-' :: titleHash8 e.title,
   lENDV]

/-- The literal line `BEGIN:VCALENDAR`. -/
def lBEGINCAL : Chars := "BEGIN:VCALENDAR".data

/-- The literal line `END:VCALENDAR`. -/
def lENDCAL : Chars := "END:VCALENDAR".data

/-- The literal line `VERSION:2.0`. -/
def lVERSION : Chars := "VERSION:2.0".data

/-- The literal `PRODID` line. -/
def hdrPRODID : Chars := "PRODID:ics.py - http://git.io/lLljaA".data

/-- Model of `calendar.serialize().split('\n')`: three header lines, the
event blocks, and the closing line. -/
def calSerialize (evs : List ScrapedEvent) : List Chars :=
  [lBEGINCAL, lVERSION, hdrPRODID] ++ (evs.map evBlock).flatten ++ [lENDCAL]

/-- The events surviving the per-event validation of `generate_ics`
(lines 498-504): an event with `end < begin` (instant comparison of the
aware timestamps) is skipped; `begin`/`end` are always set here, so the
missing-time branch never fires. -/
def keptEvents (evs : List ScrapedEvent) : List ScrapedEvent :=
  evs.filter (fun e => !zLt e.endz e.start)

/-- The line filter at line 537: keep a line iff it is non-blank and starts
with neither `VERSION:` nor `PRODID:`. -/
def keepLine (l : Chars) : Bool :=
  !(pyStrip l).isEmpty && !startsW l ("VERSION:".data) &&
    !startsW l ("PRODID:".data)

/-- The new-event lines written at lines 535-538: `calendar_lines[3:-1]`,
dropping blank, `VERSION:` and `PRODID:` lines. -/
def newLinesOf (evs : List ScrapedEvent) : List Chars :=
  (((calSerialize (keptEvents evs)).drop 3).dropLast).filter keepLine

/-- The four header lines written at lines 528-531 (`now` is the
`datetime.now().isoformat()` text, which contains no newline). -/
def header4 (now : Chars) : List Chars :=
  [lBEGINCAL, lVERSION, hdrPRODID, ("COMMENT:Generated at ".data) ++ now]

/-- `existing_event_text` (lines 457-484): block lines extracted from the
previous file, or nothing when the file does not exist. -/
def existingTextOf : Option (List Chars) → List Chars
  | none => []
  | some f => extractOut f

/-- Model of `ICNAEventsScraper.generate_ics` (lines 450-554): the file
written, as its list of lines — header, then the new events, then the prior
records verbatim, then the closing line. -/
def generate_ics (prev : Option (List Chars)) (evs : List ScrapedEvent)
    (now : Chars) : List Chars :=
  header4 now ++ newLinesOf evs ++ existingTextOf prev ++ [lENDCAL]

/-- The sequence of `f.write` calls of `generate_ics` (lines 526-545), each
as the lines it appends.  The file was opened with mode `'w'`, which
truncates it in place, so after a failure between write `k` and write `k+1`
the file holds exactly the first `k` units. -/
def writeUnits (prev : Option (List Chars)) (evs : List ScrapedEvent)
    (now : Chars) : List (List Chars) :=
  (header4 now).map (fun l => [l]) ++ (newLinesOf evs).map (fun l => [l]) ++
    [existingTextOf prev] ++ [[lENDCAL]]

/-- The on-disk content after the write fails between unit `k` and unit
`k+1`. -/
def partialWrite (prev : Option (List Chars)) (evs : List ScrapedEvent)
    (now : Chars) (k : Nat) : List Chars :=
  ((writeUnits prev evs now).take k).flatten

/-- A raw extracted event draft (title, date text, location, description,
url) as fed to the parser by the scraping loop. -/
structure Draft where
  title : Chars
  dateText : Chars
  location : Chars
  description : Chars
  url : Chars
deriving DecidableEq

/-- The aware timestamp handed to `_event_exists` by the scraping loop. -/
def toAware (z : Zoned) : AwareTS := ⟨utcSecZ z, 0⟩

/-- Lines 393-396: the caller's normalization of an inverted interval —
when the end instant is before the start instant the two endpoints are
swapped (with a logged warning); otherwise the interval is unchanged. -/
def fixInterval (s e : Zoned) : Zoned × Zoned :=
  if zLt e s then (e, s) else (s, e)

/-- Model of the per-draft processing of `scrape_all_pages_with_browser`
(lines 380-414): parse the date text, skip the draft on failure, swap an
inverted interval, stop at the first already-known event (the
`stop_scraping` flag breaks every enclosing loop), and otherwise accept the
event. -/
def scrape_accept_loop (store : List Chars) : List Draft → List ScrapedEvent
  | [] => []
  | d :: rest =>
    match parse_date_string d.dateText with
    | none => scrape_accept_loop store rest
    | some iv =>
      if _event_exists store d.title (toAware (fixInterval iv.start iv.endz).1)
      then []
      else
        ⟨d.title, (fixInterval iv.start iv.endz).1,
          (fixInterval iv.start iv.endz).2, d.location, d.description,
          d.url⟩ :: scrape_accept_loop store rest


lemma datetime_mk_valid {y m d h mi : Nat} {dt : NaiveDT}
    (he : datetime_mk y m d h mi = some dt) : validDT dt := by
  unfold datetime_mk at he
  split at he
  · cases he
    assumption
  · cases he

lemma strptimeCore_valid {ms : List (Chars × Nat)} {b : Bool} {s : Chars}
    {dt : NaiveDT} (h : strptimeCore ms b s = some dt) : validDT dt := by
  unfold strptimeCore at h
  cases b
  · simp only [bind, Option.bind_eq_some, pure, Bool.false_eq_true, if_false,
      ite_false] at h
    obtain ⟨⟨m, s1⟩, -, s2, -, ⟨d, s3⟩, -, s4, -, s5, -, ⟨y, s6⟩, -, s7, -, s8,
      -, ⟨h12, s9⟩, -, s10, -, ⟨mi, s11⟩, -, s12, -, ⟨pm, s13⟩, -, h⟩ := h
    split at h
    · exact datetime_mk_valid h
    · cases h
  · simp only [bind, Option.bind_eq_some, pure, if_true, ite_true] at h
    obtain ⟨⟨m, s1⟩, -, s2, -, ⟨d, s3⟩, -, s4, -, s5, -, ⟨y, s6⟩, -, s7, -, s8,
      -, ⟨h12, s9⟩, -, s10, -, ⟨mi, s11⟩, -, s12, -, ⟨pm, s13⟩, -, h⟩ := h
    split at h
    · exact datetime_mk_valid h
    · cases h

lemma strptimeStart_valid {s : Chars} {dt : NaiveDT}
    (h : strptimeStart s = some dt) : validDT dt := by
  unfold strptimeStart at h
  split at h
  · cases h
    exact strptimeCore_valid (by assumption)
  · exact strptimeCore_valid h

lemma nextDate_hour (dt : NaiveDT) : (nextDate dt).hour = dt.hour := by
  unfold nextDate
  split_ifs <;> rfl

lemma nextDate_minute (dt : NaiveDT) : (nextDate dt).minute = dt.minute := by
  unfold nextDate
  split_ifs <;> rfl

lemma dfc_day_succ (y m d : Nat) (h1 : 1 ≤ d) :
    daysFromCivil y m (d + 1) = daysFromCivil y m d + 1 := by
  simp only [daysFromCivil]
  split_ifs <;> omega

lemma dfc_month_succ (y m : Nat) (hy : 1 ≤ y) (h1 : 1 ≤ m) (h2 : m < 12) :
    daysFromCivil y (m + 1) 1 = daysFromCivil y m (daysInMonth y m) + 1 := by
  interval_cases m <;>
    first
      | (simp only [daysFromCivil, daysInMonth, isLeap] <;> norm_num <;> omega)
      | (simp only [daysFromCivil, daysInMonth, isLeap] <;> norm_num <;>
          (split_ifs with hl <;>
            simp only [Bool.or_eq_true, Bool.and_eq_true, beq_iff_eq,
              bne_iff_ne] at hl <;>
            omega))

lemma dfc_year_succ (y : Nat) :
    daysFromCivil (y + 1) 1 1 = daysFromCivil y 12 31 + 1 := by
  simp only [daysFromCivil]
  norm_num
  omega

lemma minOf_nextDate {dt : NaiveDT} (h : validDT dt) :
    minOf (nextDate dt) = minOf dt + 1440 := by
  obtain ⟨y, m, d, hr, mi⟩ := dt
  obtain ⟨hy1, hy2, hm1, hm2, hd1, hd2, hh, hmi⟩ := h
  simp only at hy1 hy2 hm1 hm2 hd1 hd2 hh hmi
  unfold nextDate minOf
  by_cases hlt : d < daysInMonth y m
  · have hstep := dfc_day_succ y m d hd1
    simp only [if_pos hlt]
    omega
  · have hde : d = daysInMonth y m := le_antisymm hd2 (Nat.not_lt.mp hlt)
    subst hde
    by_cases hm12 : m < 12
    · have hstep := dfc_month_succ y m hy1 hm1 hm12
      simp only [if_neg hlt, if_pos hm12]
      omega
    · have hm12e : m = 12 := by omega
      subst hm12e
      have hstep := dfc_year_succ y
      simp only [if_neg hlt, if_neg hm12]
      norm_num [daysInMonth] at hstep ⊢
      omega

lemma minOf_addHours2 {dt : NaiveDT} (h : validDT dt) :
    minOf (addHours2 dt) = minOf dt + 120 := by
  have hn := minOf_nextDate h
  have hh : dt.hour < 24 := h.2.2.2.2.2.2.1
  unfold addHours2
  by_cases h2 : dt.hour + 2 < 24
  · simp only [if_pos h2]
    unfold minOf
    dsimp only
    omega
  · simp only [if_neg h2]
    unfold minOf at hn ⊢
    rw [nextDate_hour, nextDate_minute] at hn
    dsimp only
    rw [nextDate_minute]
    omega

/-- C1 counterexample: `"December 31, 9999, 11:30 PM – 7:30 AM"` is a
Shape B input (separator present, start parsed, end matching the time-only
pattern) whose substituted end is chronologically before the start, yet the
program does not return the rolled interval the claim promises: the roll
crosses `datetime.max`, `end_dt + timedelta(days=1)` raises
`OverflowError`, and parse returns `None`. -/
theorem shapeB_overflow_counterexample :
    containsSep (normalizeDS
      ("December 31, 9999, 11:30 PM – 7:30 AM".data)) = true ∧
    strptimeStart (startCleanOf (normalizeDS
      ("December 31, 9999, 11:30 PM – 7:30 AM".data))) =
      some ⟨9999, 12, 31, 23, 30⟩ ∧
    timeOnlyMatch (pyStrip (endCleanOf (normalizeDS
      ("December 31, 9999, 11:30 PM – 7:30 AM".data)))) = true ∧
    searchTime (endCleanOf (normalizeDS
      ("December 31, 9999, 11:30 PM – 7:30 AM".data))) =
      some (7, 30, false) ∧
    ltNaive ⟨9999, 12, 31, 7, 30⟩ ⟨9999, 12, 31, 23, 30⟩ = true ∧
    parse_date_string ("December 31, 9999, 11:30 PM – 7:30 AM".data) =
      none := by
  exact ⟨by decide, by decide, by decide, by decide, by decide, by decide⟩

/-- C1 (amended): for a Shape B input (range separator present, start
parsed, end segment matching the anchored time-only `H:MM AM/PM` pattern
with extracted groups `h`/`mi`/`pm`), the substituted end keeps the start's
date and takes the end time-of-day; when that substituted end is
chronologically before the start the parser rolls it forward by exactly one
calendar day (`nextDate`) provided the rolled date is still representable
(year at most 9999) — at `datetime.max` the addition overflows and parse
fails — and when the substituted end is at or after the start no
roll-forward is applied. -/
theorem shapeB_rollforward_one_day (s : Chars) (st sub : NaiveDT) (h mi : Nat)
    (pm : Bool)
    (hsep : containsSep (normalizeDS s) = true)
    (hst : strptimeStart (startCleanOf (normalizeDS s)) = some st)
    (htm : timeOnlyMatch (pyStrip (endCleanOf (normalizeDS s))) = true)
    (hsr : searchTime (endCleanOf (normalizeDS s)) = some (h, mi, pm))
    (hrep : replace_hm st (to24 h pm) mi = some sub) :
    sub = ⟨st.year, st.month, st.day, to24 h pm, mi⟩ ∧
    (ltNaive sub st = true → (nextDate sub).year ≤ 9999 →
      parse_date_string s = some ⟨localize st, localize (nextDate sub)⟩) ∧
    (ltNaive sub st = true → 9999 < (nextDate sub).year →
      parse_date_string s = none) ∧
    (ltNaive sub st = false →
      parse_date_string s = some ⟨localize st, localize sub⟩) := by
  have hsub : sub = ⟨st.year, st.month, st.day, to24 h pm, mi⟩ := by
    unfold replace_hm at hrep
    split at hrep
    · exact (Option.some.inj hrep).symm
    · cases hrep
  refine ⟨hsub, ?_, ?_, ?_⟩
  · intro hlt hy
    simp [parse_date_string, hsep, parse_range, hst, htm, hsr, hrep, hlt,
      addOneDay, hy]
  · intro hlt hy
    have hn : ¬((nextDate sub).year ≤ 9999) := by omega
    simp [parse_date_string, hsep, parse_range, hst, htm, hsr, hrep, hlt,
      addOneDay, hn]
  · intro hlt
    simp [parse_date_string, hsep, parse_range, hst, htm, hsr, hrep, hlt]

theorem shapeB_rollforward_one_day_witness :
    ltNaive ⟨2025, 3, 15, 7, 30⟩ ⟨2025, 3, 15, 23, 30⟩ = true ∧
    parse_date_string ("March 15, 2025, 11:30 PM – 7:30 AM".data) =
      some ⟨localize ⟨2025, 3, 15, 23, 30⟩,
        localize (nextDate ⟨2025, 3, 15, 7, 30⟩)⟩ := by
  have h := shapeB_rollforward_one_day
    ("March 15, 2025, 11:30 PM – 7:30 AM".data)
    ⟨2025, 3, 15, 23, 30⟩ ⟨2025, 3, 15, 7, 30⟩ 7 30 false
    (by decide) (by decide) (by decide) (by decide) (by decide)
  exact ⟨by decide, h.2.1 (by decide) (by decide)⟩

/-- C2 counterexample: the Shape C input `"March 9, 2025, 1:00 AM"` parses,
but the two endpoints straddle the 2025 spring DST transition, so the start
localizes to UTC-8 and the end to UTC-7 and the instant difference is one
hour, not the claimed two hours. -/
theorem shapeC_dst_counterexample :
    containsSep (normalizeDS ("March 9, 2025, 1:00 AM".data)) = false ∧
    parse_date_string ("March 9, 2025, 1:00 AM".data) =
      some ⟨⟨⟨2025, 3, 9, 1, 0⟩, -480⟩, ⟨⟨2025, 3, 9, 3, 0⟩, -420⟩⟩ ∧
    ¬(utcMinZ ⟨⟨2025, 3, 9, 3, 0⟩, -420⟩ -
        utcMinZ ⟨⟨2025, 3, 9, 1, 0⟩, -480⟩ = 120) := by
  exact ⟨by decide, by decide, by decide⟩

/-- C2 (amended): every Shape C input whose start parses yields, when the
two-hour addition stays within `datetime.max` (year at most 9999), an end
whose naive wall clock is exactly two hours (120 minutes) after the start's,
the two hours being added before localization — past that boundary the
addition raises `OverflowError` and parse fails.  Whenever both endpoints
localize to the same UTC offset — in particular for
`"December 25, 2025, 2:00 PM"` — the instant difference is exactly two
hours as well, but across a DST transition it is not. -/
theorem shapeC_two_hours (s : Chars) (st : NaiveDT)
    (hsep : containsSep (normalizeDS s) = false)
    (hst : strptimeStart (stripTZ (normalizeDS s)) = some st) :
    ((addHours2 st).year ≤ 9999 →
      parse_date_string s = some ⟨localize st, localize (addHours2 st)⟩) ∧
    (9999 < (addHours2 st).year → parse_date_string s = none) ∧
    minOf (addHours2 st) = minOf st + 120 ∧
    ((localize (addHours2 st)).offMin = (localize st).offMin →
      utcMinZ (localize (addHours2 st)) - utcMinZ (localize st) = 120) := by
  have hv : validDT st := by
    unfold strptimeStart at hst
    split at hst
    · cases hst
      exact strptimeCore_valid (by assumption)
    · exact strptimeCore_valid hst
  have h2 := minOf_addHours2 hv
  refine ⟨fun hy => ?_, fun hy => ?_, h2, fun hoff => ?_⟩
  · simp [parse_date_string, hsep, parse_single, hst, addTwoHours, hy]
  · have hn : ¬((addHours2 st).year ≤ 9999) := by omega
    simp [parse_date_string, hsep, parse_single, hst, addTwoHours, hn]
  · unfold utcMinZ
    rw [hoff]
    unfold localize
    dsimp only
    omega

theorem shapeC_two_hours_witness :
    containsSep (normalizeDS ("December 25, 2025, 2:00 PM".data)) = false ∧
    parse_date_string ("December 25, 2025, 2:00 PM".data) =
      some ⟨localize ⟨2025, 12, 25, 14, 0⟩,
        localize (addHours2 ⟨2025, 12, 25, 14, 0⟩)⟩ ∧
    utcMinZ (localize (addHours2 ⟨2025, 12, 25, 14, 0⟩)) -
      utcMinZ (localize ⟨2025, 12, 25, 14, 0⟩) = 120 ∧
    localize ⟨2025, 12, 25, 14, 0⟩ = ⟨⟨2025, 12, 25, 14, 0⟩, -480⟩ ∧
    addHours2 ⟨2025, 12, 25, 14, 0⟩ = ⟨2025, 12, 25, 16, 0⟩ := by
  have h := shapeC_two_hours ("December 25, 2025, 2:00 PM".data)
    ⟨2025, 12, 25, 14, 0⟩ (by decide) (by decide)
  exact ⟨by decide, h.1 (by decide), h.2.2.2 (by decide), by decide,
    by decide⟩

/-- C5: for a Shape A input (range separator present, end segment not
matching the time-only pattern, both sides parsed as full dates) whose end
instant is before its start instant, the parser returns the interval
uncorrected (with `end < start`), and the swap of the two endpoints is the
caller's policy (`fixInterval`, lines 393-396), which swaps exactly in this
case. -/
theorem shapeA_inverted_uncorrected (s : Chars) (st en : NaiveDT)
    (hsep : containsSep (normalizeDS s) = true)
    (hst : strptimeStart (startCleanOf (normalizeDS s)) = some st)
    (htm : timeOnlyMatch (pyStrip (endCleanOf (normalizeDS s))) = false)
    (hend : strptimeEnd (endCleanOf (normalizeDS s)) = some en)
    (hlt : zLt (localize en) (localize st) = true) :
    parse_date_string s = some ⟨localize st, localize en⟩ ∧
    fixInterval (localize st) (localize en) = (localize en, localize st) := by
  constructor
  · simp [parse_date_string, hsep, parse_range, hst, htm, hend]
  · simp [fixInterval, hlt]

theorem shapeA_inverted_uncorrected_witness :
    zLt (localize ⟨2025, 7, 11, 10, 0⟩) (localize ⟨2025, 7, 27, 22, 0⟩) =
      true ∧
    parse_date_string
        ("July 27, 2025, 10:00 PM PDT – Jul 11, 2025, 10:00 AM PDT".data) =
      some ⟨localize ⟨2025, 7, 27, 22, 0⟩, localize ⟨2025, 7, 11, 10, 0⟩⟩ ∧
    fixInterval (localize ⟨2025, 7, 27, 22, 0⟩) (localize ⟨2025, 7, 11, 10, 0⟩)
      = (localize ⟨2025, 7, 11, 10, 0⟩, localize ⟨2025, 7, 27, 22, 0⟩) := by
  have h := shapeA_inverted_uncorrected
    ("July 27, 2025, 10:00 PM PDT – Jul 11, 2025, 10:00 AM PDT".data)
    ⟨2025, 7, 27, 22, 0⟩ ⟨2025, 7, 11, 10, 0⟩
    (by decide) (by decide) (by decide) (by decide) (by decide)
  exact ⟨by decide, h.1, h.2⟩

/-- C7: for an input with a range separator whose end segment neither
matches the time-only pattern nor parses under any of the four accepted
full-date end formats, the parser returns `none` (the raised `ValueError`
is caught by the enclosing handler; the embedding is a total function, so no
exception escapes), whether or not the start segment parses. -/
theorem range_bad_end_fails (s : Chars)
    (hsep : containsSep (normalizeDS s) = true)
    (htm : timeOnlyMatch (pyStrip (endCleanOf (normalizeDS s))) = false)
    (hend : strptimeEnd (endCleanOf (normalizeDS s)) = none) :
    parse_date_string s = none := by
  cases hst : strptimeStart (startCleanOf (normalizeDS s)) with
  | none => simp [parse_date_string, hsep, parse_range, hst]
  | some st => simp [parse_date_string, hsep, parse_range, hst, htm, hend]

theorem range_bad_end_fails_witness :
    containsSep (normalizeDS ("October 31, 2025, 6:00 PM – garbage".data)) =
      true ∧
    parse_date_string ("October 31, 2025, 6:00 PM – garbage".data) =
      none := by
  refine ⟨by decide, range_bad_end_fails _ (by decide) (by decide) (by decide)⟩

/-- C9: the range branch is selected iff the normalized text contains an en
dash or an em dash — `containsSep` tests exactly those two characters, and
when neither occurs the input is processed by the single-instant (Shape C)
branch, so an otherwise well-formed range written with a hyphen-minus falls
through to Shape C and fails there. -/
theorem dash_separator_detection (s : Chars) :
    containsSep (normalizeDS s) =
      ((normalizeDS s).contains '–' || (normalizeDS s).contains '—') ∧
    (containsSep (normalizeDS s) = false →
      parse_date_string s = parse_single (normalizeDS s)) := by
  refine ⟨rfl, fun hs => ?_⟩
  simp [parse_date_string, hs]

theorem dash_separator_detection_witness :
    containsSep
      (normalizeDS ("October 31, 2025, 6:00 PM - 9:00 PM PDT".data)) =
      false ∧
    parse_date_string ("October 31, 2025, 6:00 PM - 9:00 PM PDT".data) =
      parse_single
        (normalizeDS ("October 31, 2025, 6:00 PM - 9:00 PM PDT".data)) ∧
    parse_date_string ("October 31, 2025, 6:00 PM - 9:00 PM PDT".data) =
      none := by
  exact ⟨by decide, (dash_separator_detection _).2 (by decide), by decide⟩

/-- Whether the scraping loop would treat an event as already known:
`_event_exists` applied to the event's title and start only. -/
def event_seen (store : List Chars) (e : ScrapedEvent) : Bool :=
  _event_exists store e.title (toAware e.start)

/-- C6: `_event_exists` returns `true` iff the key built from the exact
title text and the UTC start instant formatted to whole seconds
(`YYYYMMDDTHHMMSSZ`) is in the loaded key set; the sub-second component
never enters the key, and two events with the same title and same
start-to-the-second are indistinguishable to it regardless of any other
field. -/
theorem event_exists_key_spec (store : List Chars) (title : Chars)
    (a : AwareTS) :
    (_event_exists store title a = true ↔
      keyOfSD title (fmtKeySec a.utcSec) ∈ store) ∧
    (∀ b : AwareTS, b.utcSec = a.utcSec →
      _event_exists store title b = _event_exists store title a) ∧
    (∀ e1 e2 : ScrapedEvent, e1.title = e2.title →
      utcSecZ e1.start = utcSecZ e2.start →
      event_seen store e1 = event_seen store e2) := by
  refine ⟨?_, fun b hb => ?_, fun e1 e2 ht hs => ?_⟩
  · unfold _event_exists
    simp [List.contains]
  · unfold _event_exists
    rw [hb]
  · unfold event_seen _event_exists toAware
    rw [ht, hs]

theorem event_exists_key_spec_witness :
    _event_exists
        [keyOfSD ("Test Event 3".data)
          (fmtKeySec (utcSecZ (localize ⟨2025, 12, 15, 2, 0⟩)))]
        ("Test Event 3".data) ⟨utcSecZ (localize ⟨2025, 12, 15, 2, 0⟩), 0⟩ =
      true ∧
    _event_exists
        [keyOfSD ("Test Event 3".data)
          (fmtKeySec (utcSecZ (localize ⟨2025, 12, 15, 2, 0⟩)))]
        ("Test Event 3".data)
        ⟨utcSecZ (localize ⟨2025, 12, 15, 2, 0⟩), 999999⟩ = true := by
  have h := event_exists_key_spec
    [keyOfSD ("Test Event 3".data)
      (fmtKeySec (utcSecZ (localize ⟨2025, 12, 15, 2, 0⟩)))]
    ("Test Event 3".data) ⟨utcSecZ (localize ⟨2025, 12, 15, 2, 0⟩), 0⟩
  refine ⟨h.1.mpr (by decide), ?_⟩
  rw [h.2.1 ⟨utcSecZ (localize ⟨2025, 12, 15, 2, 0⟩), 999999⟩ rfl]
  exact h.1.mpr (by decide)

/-- C10: every event in the list returned by the scraping loop has its end
instant at or after its start instant (inverted intervals having been
swapped by the caller's policy), and its identity key is absent from the
store snapshot loaded at the start of the run. -/
theorem scrape_output_invariants (store : List Chars) (ds : List Draft) :
    ∀ e ∈ scrape_accept_loop store ds,
      zLt e.endz e.start = false ∧
      _event_exists store e.title (toAware e.start) = false := by
  induction ds with
  | nil =>
    intro e he
    simp [scrape_accept_loop] at he
  | cons d rest ih =>
    intro e he
    simp only [scrape_accept_loop] at he
    cases hp : parse_date_string d.dateText with
    | none =>
      rw [hp] at he
      exact ih e he
    | some iv =>
      rw [hp] at he
      by_cases hex : _event_exists store d.title
          (toAware (fixInterval iv.start iv.endz).1) = true
      · simp [hex] at he
      · simp only [hex, Bool.false_eq_true, if_false, List.mem_cons,
          Bool.not_eq_true] at he
        rcases he with he | he
        · subst he
          rw [Bool.not_eq_true] at hex
          refine ⟨?_, hex⟩
          unfold fixInterval at hex ⊢
          by_cases hz : zLt iv.endz iv.start = true
          · simp only [hz, if_true, ite_true]
            simp only [zLt, decide_eq_true_eq] at hz
            simp only [zLt, decide_eq_false_iff_not]
            omega
          · simp only [hz, Bool.false_eq_true, if_false, ite_false]
        · exact ih e he

theorem scrape_output_invariants_witness :
    (⟨"T".data, localize ⟨2025, 12, 25, 14, 0⟩,
        localize ⟨2025, 12, 25, 16, 0⟩, [], [], []⟩ : ScrapedEvent) ∈
      scrape_accept_loop []
        [⟨"T".data, "December 25, 2025, 2:00 PM".data, [], [], []⟩] ∧
    zLt (localize ⟨2025, 12, 25, 16, 0⟩) (localize ⟨2025, 12, 25, 14, 0⟩) =
      false ∧
    _event_exists [] ("T".data) (toAware (localize ⟨2025, 12, 25, 14, 0⟩)) =
      false := by
  have hm : (⟨"T".data, localize ⟨2025, 12, 25, 14, 0⟩,
      localize ⟨2025, 12, 25, 16, 0⟩, [], [], []⟩ : ScrapedEvent) ∈
      scrape_accept_loop []
        [⟨"T".data, "December 25, 2025, 2:00 PM".data, [], [], []⟩] := by
    decide
  have h := scrape_output_invariants []
    [⟨"T".data, "December 25, 2025, 2:00 PM".data, [], [], []⟩] _ hm
  exact ⟨hm, h.1, h.2⟩

lemma loadRun_append (σ : LoadSt) (a b : List Chars) :
    loadRun σ (a ++ b) = loadRun (loadRun σ a) b :=
  List.foldl_append ..

/-- Invariant of the load scanner: outside an event, a non-empty
summary/dtstart pair left over from the last flushed event already has its
key recorded, so a stray `END:VEVENT` line re-inserts an existing key and
never creates a new one. -/
def goodState (σ : LoadSt) : Prop :=
  σ.inE = false → σ.sum ≠ [] → σ.dts ≠ [] → keyOfSD σ.sum σ.dts ∈ σ.keys

lemma goodState_lstep {σ : LoadSt} (h : goodState σ) (l : Chars) :
    goodState (lstep σ l) := by
  unfold lstep
  split_ifs with h1 h2 h3 h4 h5
  · intro hc
    cases hc
  · intro _ hs hd
    unfold emitOf
    rw [if_pos ⟨hs, hd⟩]
    exact List.mem_append_right _ (List.mem_singleton.mpr rfl)
  all_goals intro hc
  · rw [show σ.inE = true from h3] at hc
    cases hc
  · rw [show σ.inE = true from h3] at hc
    cases hc
  · rw [show σ.inE = true from h3] at hc
    cases hc
  · exact h hc

lemma goodState_loadRun {σ : LoadSt} (h : goodState σ) (f : List Chars) :
    goodState (loadRun σ f) := by
  induction f generalizing σ with
  | nil => exact h
  | cons l rest ih => exact ih (goodState_lstep h l)

/-- A line that is neither a `BEGIN:VEVENT` nor an `END:VEVENT` line. -/
def cleanLine (l : Chars) : Prop :=
  startsW l lBEGINV = false ∧ startsW l lENDV = false

/-- The effect of one interior line on the (summary, dtstart) pair. -/
def midUpd (p : Chars × Chars) (l : Chars) : Chars × Chars :=
  if startsW l lSUMMARY then (l.drop 8, p.2)
  else if startsW l lDTSTART then (p.1, l.drop 8)
  else p

lemma lstep_outside (σ : LoadSt) (l : Chars)
    (hB : startsW l lBEGINV = false) (hE : startsW l lENDV = false)
    (hI : σ.inE = false) : lstep σ l = σ := by
  simp [lstep, hB, hE, hI]

lemma lstep_clean_inE (σ : LoadSt) (l : Chars) (hc : cleanLine l)
    (hI : σ.inE = true) :
    lstep σ l = ⟨true, (midUpd (σ.sum, σ.dts) l).1,
      (midUpd (σ.sum, σ.dts) l).2, σ.keys⟩ := by
  obtain ⟨hB, hE⟩ := hc
  obtain ⟨iE, ss, dd, ks⟩ := σ
  simp only at hI
  subst hI
  unfold lstep midUpd
  simp only [hB, hE, Bool.false_eq_true, if_false, if_true, ite_true,
    ite_false]
  split_ifs <;> rfl

lemma lstep_begin (σ : LoadSt) (l : Chars) (hB : startsW l lBEGINV = true) :
    lstep σ l = ⟨true, [], [], σ.keys⟩ := by
  simp [lstep, hB]

lemma lstep_end (σ : LoadSt) (l : Chars) (hB : startsW l lBEGINV = false)
    (hE : startsW l lENDV = true) :
    lstep σ l = ⟨false, σ.sum, σ.dts, σ.keys ++ emitOf σ.sum σ.dts⟩ := by
  simp [lstep, hB, hE]

lemma loadRun_clean_mid (s d : Chars) (ks : List Chars) (mid : List Chars)
    (hc : ∀ l ∈ mid, cleanLine l) :
    loadRun ⟨true, s, d, ks⟩ mid =
      ⟨true, (mid.foldl midUpd (s, d)).1, (mid.foldl midUpd (s, d)).2, ks⟩ := by
  induction mid generalizing s d with
  | nil => rfl
  | cons l rest ih =>
    have hstep := lstep_clean_inE ⟨true, s, d, ks⟩ l (hc l (by simp)) rfl
    simp only [loadRun, List.foldl_cons] at hstep ⊢
    rw [hstep]
    exact ih (midUpd (s, d) l).1 (midUpd (s, d) l).2
      (fun x hx => hc x (by simp [hx]))

lemma estep_begin (e : ExSt) (l : Chars) (hB : startsW l lBEGINV = true) :
    estep e l = ⟨true, [l], e.out⟩ := by
  simp [estep, hB]

lemma estep_end (e : ExSt) (l : Chars) (hB : startsW l lBEGINV = false)
    (hE : startsW l lENDV = true) :
    estep e l = ⟨false, [], e.out ++ e.cur ++ [l]⟩ := by
  simp [estep, hB, hE]

lemma estep_clean_inE (e : ExSt) (l : Chars) (hc : cleanLine l)
    (hI : e.inE = true) :
    estep e l = ⟨true, e.cur ++ [l], e.out⟩ := by
  simp [estep, hc.1, hc.2, hI]

lemma estep_outside (e : ExSt) (l : Chars) (hB : startsW l lBEGINV = false)
    (hE : startsW l lENDV = false) (hI : e.inE = false) : estep e l = e := by
  simp [estep, hB, hE, hI]

lemma loadRun_evBlock (σ : LoadSt) (e : ScrapedEvent) :
    loadRun σ (evBlock e) = ⟨false, icsEscape e.title,
      fmtKeySec (utcSecZ e.start),
      σ.keys ++ emitOf (icsEscape e.title) (fmtKeySec (utcSecZ e.start))⟩ := by
  rfl

/-- The identity keys contributed by the events newly serialized in a run
(of those that survive the `end < begin` filter), as read back by the load
scanner: escaped title and UTC-formatted start. -/
def newKeys (bs : List ScrapedEvent) : List Chars :=
  (bs.map (fun e =>
    emitOf (icsEscape e.title) (fmtKeySec (utcSecZ e.start)))).flatten

lemma loadRun_blocks_spec (σ : LoadSt) (bs : List ScrapedEvent)
    (h : σ.inE = false) (hg : goodState σ) :
    (loadRun σ ((bs.map evBlock).flatten)).inE = false ∧
    goodState (loadRun σ ((bs.map evBlock).flatten)) ∧
    ∀ k, k ∈ (loadRun σ ((bs.map evBlock).flatten)).keys ↔
      k ∈ σ.keys ∨ k ∈ newKeys bs := by
  induction bs generalizing σ with
  | nil =>
    exact ⟨h, hg, fun k => by simp [loadRun, newKeys]⟩
  | cons b rest ih =>
    simp only [List.map_cons, List.flatten_cons, loadRun_append,
      loadRun_evBlock]
    have hg2 : goodState (⟨false, icsEscape b.title,
        fmtKeySec (utcSecZ b.start), σ.keys ++ emitOf (icsEscape b.title)
          (fmtKeySec (utcSecZ b.start))⟩ : LoadSt) := by
      intro _ hs hd
      unfold emitOf
      rw [if_pos ⟨hs, hd⟩]
      exact List.mem_append_right _ (List.mem_singleton.mpr rfl)
    obtain ⟨h1, h2, h3⟩ := ih _ rfl hg2
    refine ⟨h1, h2, fun k => ?_⟩
    rw [h3 k]
    simp [newKeys, List.mem_append, or_assoc]

lemma startsW_cons_ne (a c : Char) (l p : Chars) (h : a ≠ c) :
    startsW (c :: l) (a :: p) = false := by
  simp [startsW, isPrefixChars, h]

lemma dropWhile_concat_ne_nil (p : Char → Bool) (c : Char)
    (hc : p c = false) : ∀ xs : Chars, (xs ++ [c]).dropWhile p ≠ [] := by
  intro xs
  induction xs with
  | nil => simp [List.dropWhile, hc]
  | cons x rest ih =>
    rw [List.cons_append, List.dropWhile_cons]
    split_ifs
    · exact ih
    · simp

lemma pyStrip_cons_ne_nil (c : Char) (l : Chars) (hc : isPySpace c = false) :
    pyStrip (c :: l) ≠ [] := by
  unfold pyStrip
  rw [List.dropWhile_cons, if_neg (by simp [hc])]
  rw [List.reverse_cons]
  intro h
  exact dropWhile_concat_ne_nil isPySpace c hc l.reverse
    (by simpa using congrArg List.reverse h)

lemma keepLine_head (c : Char) (l : Chars) (h1 : isPySpace c = false)
    (h2 : ('V' : Char) ≠ c) (h3 : ('P' : Char) ≠ c) :
    keepLine (c :: l) = true := by
  have hs := pyStrip_cons_ne_nil c l h1
  have hv : startsW (c :: l) ("VERSION:".data) = false :=
    startsW_cons_ne 'V' c l ("ERSION:".data) h2
  have hp : startsW (c :: l) ("PRODID:".data) = false :=
    startsW_cons_ne 'P' c l ("RODID:".data) h3
  unfold keepLine
  rw [hv, hp]
  simp [List.isEmpty_iff, hs]

lemma filter_evBlock (e : ScrapedEvent) :
    (evBlock e).filter keepLine = evBlock e := by
  have hB : keepLine lBEGINV = true := by decide
  have hEnd : keepLine lENDV = true := by decide
  have h2 : keepLine (lDTSTART ++ fmtKeySec (utcSecZ e.start)) = true :=
    keepLine_head 'D' _ (by decide) (by decide) (by decide)
  have h3 : keepLine (("DTEND:".data) ++ fmtKeySec (utcSecZ e.endz)) = true :=
    keepLine_head 'D' _ (by decide) (by decide) (by decide)
  have h4 : keepLine (lSUMMARY ++ icsEscape e.title) = true :=
    keepLine_head 'S' _ (by decide) (by decide) (by decide)
  have h5 : keepLine (("DESCRIPTION:".data) ++ icsEscape (descText e)) =
      true := keepLine_head 'D' _ (by decide) (by decide) (by decide)
  have h6 : keepLine (("LOCATION:".data) ++ icsEscape e.location) = true :=
    keepLine_head 'L' _ (by decide) (by decide) (by decide)
  have h7 : keepLine (("UID:".data) ++ fmtLocalCompact e.start ++
      '-' :: titleHash8 e.title) = true :=
    keepLine_head 'U' _ (by decide) (by decide) (by decide)
  simp only [evBlock, List.filter_cons, List.filter_nil, hB, hEnd, h2, h3,
    h4, h5, h6, h7, eq_self_iff_true, if_true]

lemma newLinesOf_eq (evs : List ScrapedEvent) :
    newLinesOf evs = ((keptEvents evs).map evBlock).flatten := by
  unfold newLinesOf calSerialize
  have h1 : (([lBEGINCAL, lVERSION, hdrPRODID] ++
      (((keptEvents evs).map evBlock).flatten ++ [lENDCAL])).drop 3) =
      ((keptEvents evs).map evBlock).flatten ++ [lENDCAL] := rfl
  rw [List.append_assoc, h1, List.dropLast_concat]
  suffices h : ∀ bs : List ScrapedEvent,
      ((bs.map evBlock).flatten).filter keepLine = (bs.map evBlock).flatten
    from h _
  intro bs
  induction bs with
  | nil => rfl
  | cons b rest ih =>
    simp [List.filter_append, filter_evBlock, ih]

/-- Coupling invariant between the load scan of a file prefix (state `σ`),
the block-extraction scan of the same prefix (state `e`), and the replay of
the extracted output from an arbitrary outside load state `τ`.  It captures
that the extraction's pending block mirrors the load scanner's current
summary/dtstart, that the replay stays outside an event, and that the
replayed key set is exactly `τ`'s keys together with the scanned keys. -/
structure MergeInv (τ σ : LoadSt) (e : ExSt) : Prop where
  inE_eq : e.inE = σ.inE
  cur_nil : σ.inE = false → e.cur = []
  cur_block : σ.inE = true → ∃ b mid, e.cur = b :: mid ∧
    startsW b lBEGINV = true ∧ (∀ l ∈ mid, cleanLine l) ∧
    mid.foldl midUpd ([], []) = (σ.sum, σ.dts)
  rho_inE : (loadRun τ e.out).inE = false
  rho_good : goodState (loadRun τ e.out)
  sigma_good : goodState σ
  keys_iff : ∀ k, k ∈ (loadRun τ e.out).keys ↔ k ∈ τ.keys ∨ k ∈ σ.keys

lemma emitOf_subset {s d : Chars} {ks : List Chars}
    (h : s ≠ [] → d ≠ [] → keyOfSD s d ∈ ks) :
    ∀ x ∈ emitOf s d, x ∈ ks := by
  intro x hx
  unfold emitOf at hx
  split_ifs at hx with hc
  · rw [List.mem_singleton] at hx
    subst hx
    exact h hc.1 hc.2
  · cases hx

lemma mergeInv_step {τ σ : LoadSt} {e : ExSt} (inv : MergeInv τ σ e)
    (l : Chars) : MergeInv τ (lstep σ l) (estep e l) := by
  by_cases hB : startsW l lBEGINV = true
  · rw [lstep_begin σ l hB, estep_begin e l hB]
    refine ⟨rfl, by simp, ?_, inv.rho_inE, inv.rho_good,
      by intro h; simp at h, fun k => inv.keys_iff k⟩
    intro _
    exact ⟨l, [], rfl, hB, by simp, rfl⟩
  · have hB' : startsW l lBEGINV = false := by
      rw [← Bool.not_eq_true]
      exact hB
    by_cases hE : startsW l lENDV = true
    · rw [lstep_end σ l hB' hE]
      by_cases hI : σ.inE = true
      · obtain ⟨b, mid, hcur, hbB, hmidc, hmidf⟩ := inv.cur_block hI
        rw [estep_end e l hB' hE, hcur]
        have hout : loadRun τ ((e.out ++ (b :: mid)) ++ [l]) =
            ⟨false, σ.sum, σ.dts,
              (loadRun τ e.out).keys ++ emitOf σ.sum σ.dts⟩ := by
          rw [loadRun_append, loadRun_append]
          have hb1 : loadRun (loadRun τ e.out) (b :: mid) =
              ⟨true, σ.sum, σ.dts, (loadRun τ e.out).keys⟩ := by
            have hstep : loadRun (loadRun τ e.out) (b :: mid) =
                loadRun (lstep (loadRun τ e.out) b) mid := rfl
            rw [hstep, lstep_begin _ b hbB,
              loadRun_clean_mid _ _ _ mid hmidc, hmidf]
          rw [hb1]
          exact lstep_end _ l hB' hE
        refine ⟨rfl, fun _ => rfl, by intro h; simp at h, ?_, ?_, ?_, ?_⟩
        · dsimp only
          rw [hout]
        · dsimp only
          rw [hout]
          intro _ hs hd
          dsimp only at hs hd ⊢
          refine List.mem_append_right _ ?_
          unfold emitOf
          rw [if_pos ⟨hs, hd⟩]
          exact List.mem_singleton.mpr rfl
        · intro _ hs hd
          dsimp only at hs hd ⊢
          unfold emitOf
          rw [if_pos ⟨hs, hd⟩]
          exact List.mem_append_right _ (List.mem_singleton.mpr rfl)
        · intro k
          dsimp only
          rw [hout]
          dsimp only
          rw [List.mem_append, List.mem_append, inv.keys_iff k, or_assoc]
      · have hIf : σ.inE = false := by
          rw [← Bool.not_eq_true]
          exact hI
        have hcur := inv.cur_nil hIf
        rw [estep_end e l hB' hE, hcur]
        have hout : loadRun τ ((e.out ++ []) ++ [l]) =
            ⟨false, (loadRun τ e.out).sum, (loadRun τ e.out).dts,
              (loadRun τ e.out).keys ++
                emitOf (loadRun τ e.out).sum (loadRun τ e.out).dts⟩ := by
          rw [loadRun_append, loadRun_append]
          exact lstep_end _ l hB' hE
        have hρem : ∀ x ∈ emitOf (loadRun τ e.out).sum (loadRun τ e.out).dts,
            x ∈ (loadRun τ e.out).keys :=
          emitOf_subset (inv.rho_good inv.rho_inE)
        have hσem : ∀ x ∈ emitOf σ.sum σ.dts, x ∈ σ.keys :=
          emitOf_subset (inv.sigma_good hIf)
        refine ⟨rfl, fun _ => rfl, by intro h; simp at h, ?_, ?_, ?_, ?_⟩
        · dsimp only
          rw [hout]
        · dsimp only
          rw [hout]
          intro _ hs hd
          dsimp only at hs hd ⊢
          exact List.mem_append_left _ (inv.rho_good inv.rho_inE hs hd)
        · intro _ hs hd
          dsimp only at hs hd ⊢
          exact List.mem_append_left _ (inv.sigma_good hIf hs hd)
        · intro k
          dsimp only
          rw [hout]
          dsimp only
          rw [List.mem_append, List.mem_append]
          constructor
          · rintro (hk | hk)
            · exact ((inv.keys_iff k).mp hk).imp_right Or.inl
            · exact ((inv.keys_iff k).mp (hρem k hk)).imp_right Or.inl
          · rintro (hk | hk | hk)
            · exact Or.inl ((inv.keys_iff k).mpr (Or.inl hk))
            · exact Or.inl ((inv.keys_iff k).mpr (Or.inr hk))
            · exact Or.inl ((inv.keys_iff k).mpr (Or.inr (hσem k hk)))
    · have hE' : startsW l lENDV = false := by
        rw [← Bool.not_eq_true]
        exact hE
      by_cases hI : σ.inE = true
      · obtain ⟨b, mid, hcur, hbB, hmidc, hmidf⟩ := inv.cur_block hI
        rw [lstep_clean_inE σ l ⟨hB', hE'⟩ hI,
          estep_clean_inE e l ⟨hB', hE'⟩ (inv.inE_eq.trans hI)]
        refine ⟨rfl, by intro h; simp at h, ?_, inv.rho_inE, inv.rho_good,
          by intro h; simp at h, fun k => inv.keys_iff k⟩
        intro _
        refine ⟨b, mid ++ [l], ?_, hbB, ?_, ?_⟩
        · dsimp only
          rw [hcur]
          rfl
        · intro x hx
          rcases List.mem_append.mp hx with h | h
          · exact hmidc x h
          · rw [List.mem_singleton] at h
            subst h
            exact ⟨hB', hE'⟩
        · rw [List.foldl_append, hmidf]
          rfl
      · have hIf : σ.inE = false := by
          rw [← Bool.not_eq_true]
          exact hI
        rw [lstep_outside σ l hB' hE' hIf,
          estep_outside e l hB' hE' (inv.inE_eq.trans hIf)]
        exact inv

lemma goodState_loadInit : goodState loadInit := by
  intro _ hs _
  exact absurd rfl hs

lemma mergeInv_init (τ : LoadSt) (hτI : τ.inE = false) (hτg : goodState τ) :
    MergeInv τ loadInit exInit := by
  refine ⟨rfl, fun _ => rfl, by intro h; simp [loadInit] at h, hτI, hτg,
    goodState_loadInit, fun k => ?_⟩
  show k ∈ (loadRun τ []).keys ↔ k ∈ τ.keys ∨ k ∈ ([] : List Chars)
  simp [loadRun]

lemma mergeInv_fold (ls : List Chars) {τ σ : LoadSt} {e : ExSt}
    (inv : MergeInv τ σ e) :
    MergeInv τ (loadRun σ ls) (ls.foldl estep e) := by
  induction ls generalizing σ e with
  | nil => exact inv
  | cons l rest ih => exact ih (mergeInv_step inv l)

lemma loadRun_extractOut (ls : List Chars) (τ : LoadSt) (hτI : τ.inE = false)
    (hτg : goodState τ) :
    (loadRun τ (extractOut ls)).inE = false ∧
    goodState (loadRun τ (extractOut ls)) ∧
    ∀ k, k ∈ (loadRun τ (extractOut ls)).keys ↔
      k ∈ τ.keys ∨ k ∈ (loadRun loadInit ls).keys := by
  have inv := mergeInv_fold ls (mergeInv_init τ hτI hτg)
  exact ⟨inv.rho_inE, inv.rho_good, inv.keys_iff⟩

lemma loadRun_header (τ : LoadSt) (now : Chars) (h : τ.inE = false) :
    loadRun τ (header4 now) = τ := by
  unfold header4 loadRun
  simp only [List.foldl_cons, List.foldl_nil]
  rw [lstep_outside τ lBEGINCAL rfl rfl h,
    lstep_outside τ lVERSION rfl rfl h,
    lstep_outside τ hdrPRODID rfl rfl h,
    lstep_outside τ (("COMMENT:Generated at ".data) ++ now) rfl rfl h]

/-- The key set of the file written by `generate_ics`: exactly the keys of
the surviving new events together with the keys loadable from the previous
file. -/
lemma generate_ics_keys (prev : Option (List Chars))
    (evs : List ScrapedEvent) (now : Chars) (k : Chars) :
    k ∈ load_existing_events (some (generate_ics prev evs now)) ↔
      k ∈ newKeys (keptEvents evs) ∨ k ∈ load_existing_events prev := by
  show k ∈ (loadRun loadInit (generate_ics prev evs now)).keys ↔ _
  unfold generate_ics
  rw [loadRun_append, loadRun_append, loadRun_append,
    loadRun_header loadInit now rfl, newLinesOf_eq]
  have hb := loadRun_blocks_spec loadInit (keptEvents evs) rfl
    goodState_loadInit
  cases prev with
  | none =>
    show k ∈ (loadRun (loadRun _ ([] : List Chars)) [lENDCAL]).keys ↔ _
    have hend : loadRun (loadRun
        (loadRun loadInit ((keptEvents evs).map evBlock).flatten)
        ([] : List Chars)) [lENDCAL] =
        loadRun loadInit ((keptEvents evs).map evBlock).flatten := by
      show lstep _ lENDCAL = _
      exact lstep_outside _ _ rfl rfl hb.1
    rw [hend]
    rw [hb.2.2 k]
    simp [loadInit, load_existing_events]
  | some f =>
    show k ∈ (loadRun (loadRun _ (extractOut f)) [lENDCAL]).keys ↔ _
    have hex := loadRun_extractOut f
      (loadRun loadInit ((keptEvents evs).map evBlock).flatten) hb.1 hb.2.1
    have hend : loadRun (loadRun
        (loadRun loadInit ((keptEvents evs).map evBlock).flatten)
        (extractOut f)) [lENDCAL] =
        loadRun (loadRun loadInit ((keptEvents evs).map evBlock).flatten)
          (extractOut f) := by
      show lstep _ lENDCAL = _
      exact lstep_outside _ _ rfl rfl hex.1
    rw [hend, hex.2.2 k, hb.2.2 k]
    simp only [loadInit, List.not_mem_nil, false_or]
    rfl

/-- C3: running the merge twice with the same new events, the second run
reading the file produced by the first, leaves the identity-key set
reconstructed by the loader unchanged — repeating the merge duplicates no
key (for every starting file, including a missing one). -/
theorem merge_idempotent_keys (prev : Option (List Chars))
    (evs : List ScrapedEvent) (now1 now2 k : Chars) :
    k ∈ load_existing_events (some (generate_ics
        (some (generate_ics prev evs now1)) evs now2)) ↔
      k ∈ load_existing_events (some (generate_ics prev evs now1)) := by
  rw [generate_ics_keys, generate_ics_keys]
  tauto

/-- C4: the file written by the merge consists of the header, then the new
records, then every previously persisted record copied verbatim (the
extracted blocks of the prior file appear unchanged, after the new lines),
and reloading the merged file yields a key set containing every key
loadable from the prior file. -/
theorem merge_preserves_prior (f : List Chars) (evs : List ScrapedEvent)
    (now : Chars) :
    generate_ics (some f) evs now =
      (header4 now ++ newLinesOf evs) ++ extractOut f ++ [lENDCAL] ∧
    (∀ k, k ∈ load_existing_events (some f) →
      k ∈ load_existing_events (some (generate_ics (some f) evs now))) := by
  constructor
  · simp [generate_ics, existingTextOf, List.append_assoc]
  · intro k hk
    rw [generate_ics_keys]
    exact Or.inr hk

theorem merge_preserves_prior_witness :
    keyOfSD ("Test".data) ("20250101T000000Z".data) ∈
      load_existing_events (some [lBEGINV, ("SUMMARY:Test".data),
        ("DTSTART:20250101T000000Z".data), lENDV]) ∧
    keyOfSD ("Test".data) ("20250101T000000Z".data) ∈
      load_existing_events (some (generate_ics
        (some [lBEGINV, ("SUMMARY:Test".data),
          ("DTSTART:20250101T000000Z".data), lENDV]) [] [])) := by
  refine ⟨by decide, ?_⟩
  exact (merge_preserves_prior [lBEGINV, ("SUMMARY:Test".data),
    ("DTSTART:20250101T000000Z".data), lENDV] [] []).2 _ (by decide)

/-- C8: the merge writes the output by truncating the target in place
(mode `'w'`) and writing incrementally, so a failure partway through the
write leaves only the prefix written so far: with a prior file holding one
event, a failure after the first write call leaves a file containing only
the `BEGIN:VCALENDAR` line, from which the previously persisted key can no
longer be loaded — the prior file is not protected by a
write-new-then-replace step. -/
theorem partial_write_loses_prior :
    keyOfSD ("Test".data) ("20250101T000000Z".data) ∈
      load_existing_events (some [lBEGINV, ("SUMMARY:Test".data),
        ("DTSTART:20250101T000000Z".data), lENDV]) ∧
    partialWrite (some [lBEGINV, ("SUMMARY:Test".data),
      ("DTSTART:20250101T000000Z".data), lENDV]) [] [] 1 = [lBEGINCAL] ∧
    load_existing_events (some (partialWrite
      (some [lBEGINV, ("SUMMARY:Test".data),
        ("DTSTART:20250101T000000Z".data), lENDV]) [] [] 1)) = [] := by
  exact ⟨by decide, by decide, by decide⟩
